import Mathlib

/-!
# Verification of the great_expectations expectation/metric resolution core

Shallow embedding of the parts of the `great_expectations` repository that the
claims address:

* `great_expectations/expectations/expectation.py`:
  - `ColumnMapExpectation._validate` / `ColumnPairMapExpectation._validate`
    (success-ratio logic),
  - `ColumnMapExpectation.get_validation_dependencies` /
    `ColumnPairMapExpectation.get_validation_dependencies` (metric key sets),
  - `_format_map_output` (tiered result payload builder).
* `great_expectations/execution_engine/sparkdf_execution_engine.py`:
  - `SparkDFExecutionEngine.get_compute_domain`,
  - `SparkDFExecutionEngine.resolve_metric_bundle`.

Counts are embedded as `ℕ`/`ℤ` and Python's float division of counts as exact
division in `ℚ`.  Python `dict`s are embedded as association lists that keep
the first-insertion order of keys (the Python 3.7+ dict guarantee), and `None`
as `Option.none`.  Fallible code returns `Except String`.
-/

namespace GreatExpectations

/-! ## Result formatter: `_format_map_output`

The Python function incrementally builds a nested dict.  We embed the payload
as a structure whose fields are `Option`-valued: `none` means the key is
absent from the dict, `some v` means the key is present with value `v`.
A present key whose Python value is `None` is `some none`. -/

/-- Payload of `_format_map_output`.  The `success` key is always present;
every other field is `some v` exactly when the corresponding key is present
in the returned dict. `V` is the type of the values of the column. -/
structure MapOutput (V : Type) where
  success : Bool
  element_count : Option ℕ
  unexpected_count : Option ℕ
  unexpected_percent : Option (Option ℚ)
  partial_unexpected_list : Option (List V)
  missing_count : Option ℤ
  missing_percent : Option (Option ℚ)
  unexpected_percent_nonmissing : Option (Option ℚ)
  partial_unexpected_index_list : Option (Option (List ℕ))
  partial_unexpected_counts : Option (List (V × ℕ))
  unexpected_list : Option (List V)
  unexpected_index_list : Option (Option (List ℕ))
deriving DecidableEq, Repr

/-- First-occurrence deduplication with an accumulator of already-seen
elements; `firstDedupAux seen l` drops from `l` every element of `seen` and
every repeat.  Models the key order of a Python dict built by iteration. -/
def firstDedupAux {α : Type _} [DecidableEq α] (seen : List α) : List α → List α
  | [] => []
  | x :: xs =>
    if x ∈ seen then firstDedupAux seen xs
    else x :: firstDedupAux (x :: seen) xs

/-- The distinct elements of `l` in order of first occurrence (Python dict
key order). -/
def firstDedup {α : Type _} [DecidableEq α] (l : List α) : List α :=
  firstDedupAux [] l

/-- `collections.Counter(l)` as an association list: the distinct values of
`l` in first-occurrence order, each with its multiplicity. -/
def counterItems {V : Type _} [DecidableEq V] (l : List V) : List (V × ℕ) :=
  (firstDedup l).map (fun v => (v, l.count v))

/-- The ordering used by `Counter.most_common` /
`sorted(..., key=itemgetter(1), reverse=True)`: descending count.  The
relation is reflexive-total so that `insertionSort` with it is stable, like
Python's sort: equal counts keep first-occurrence order. -/
def countDescRel {V : Type _} (a b : V × ℕ) : Prop := b.2 ≤ a.2

instance {V : Type _} : DecidableRel (@countDescRel V) := fun a b =>
  inferInstanceAs (Decidable (b.2 ≤ a.2))

/-- `Counter(l).most_common(n)`: the `n` highest-count items, descending by
count, ties kept in first-occurrence order (Python's `nlargest` is stable). -/
def mostCommon {V : Type _} [DecidableEq V] (n : ℕ) (l : List V) : List (V × ℕ) :=
  ((counterItems l).insertionSort countDescRel).take n

/-- The ordering of `sorted(..., key=lambda x: (-x[1], x[0]))`: descending
count, then ascending value. -/
def countValRel {V : Type _} [LinearOrder V] (a b : V × ℕ) : Prop :=
  b.2 < a.2 ∨ (a.2 = b.2 ∧ a.1 ≤ b.1)

instance {V : Type _} [LinearOrder V] : DecidableRel (@countValRel V _) := fun a b =>
  inferInstanceAs (Decidable (b.2 < a.2 ∨ (a.2 = b.2 ∧ a.1 ≤ b.1)))

/-- The `partial_unexpected_counts` list of `_format_map_output`:
`sorted(Counter(unexpected_list).most_common(limit), key=lambda x: (-x[1], x[0]))`,
each entry as a `(value, count)` pair. -/
def partialUnexpectedCounts {V : Type _} [DecidableEq V] [LinearOrder V]
    (limit : ℕ) (unexpected_list : List V) : List (V × ℕ) :=
  (mostCommon limit unexpected_list).insertionSort countValRel

/-- Embedding of `_format_map_output` (expectation.py).  `result_format` is
the resolved `result_format["result_format"]` string and `limit` the resolved
`result_format["partial_unexpected_count"]`.  Raising `ValueError` is
embedded as `Except.error`.  The hashability `TypeError` fallback of the
Python code cannot fire here since `V` has decidable equality. -/
def formatMapOutput {V : Type _} [DecidableEq V] [LinearOrder V]
    (result_format : String) (limit : ℕ) (success : Bool)
    (element_count : ℕ) (nonnull_count : Option ℕ) (unexpected_count : ℕ)
    (unexpected_list : List V) (unexpected_index_list : Option (List ℕ)) :
    Except String (MapOutput V) :=
  let return_obj : MapOutput V :=
    { success := success
      element_count := none, unexpected_count := none, unexpected_percent := none
      partial_unexpected_list := none, missing_count := none, missing_percent := none
      unexpected_percent_nonmissing := none, partial_unexpected_index_list := none
      partial_unexpected_counts := none, unexpected_list := none
      unexpected_index_list := none }
  if result_format = "BOOLEAN_ONLY" then .ok return_obj
  else
    -- skip_missing is true exactly when nonnull_count is None
    let missing_count : Option ℤ :=
      nonnull_count.map (fun nn => (element_count : ℤ) - (nn : ℤ))
    let unexpected_percent : Option ℚ :=
      if 0 < element_count then
        some ((unexpected_count : ℚ) / (element_count : ℚ) * 100)
      else none
    let missing_percent : Option ℚ :=
      if 0 < element_count then
        match missing_count with
        | some mc => some ((mc : ℚ) / (element_count : ℚ) * 100)
        | none => none
      else none
    let unexpected_percent_nonmissing : Option ℚ :=
      if 0 < element_count then
        match nonnull_count with
        | some nn =>
          if 0 < nn then some ((unexpected_count : ℚ) / (nn : ℚ) * 100) else none
        | none => none
      else none
    let return_obj : MapOutput V :=
      { return_obj with
          element_count := some element_count
          unexpected_count := some unexpected_count
          unexpected_percent := some unexpected_percent
          partial_unexpected_list := some (unexpected_list.take limit) }
    let return_obj : MapOutput V :=
      match nonnull_count with
      | none => return_obj
      | some _ =>
        { return_obj with
            missing_count := missing_count
            missing_percent := some missing_percent
            unexpected_percent_nonmissing := some unexpected_percent_nonmissing }
    if result_format = "BASIC" then .ok return_obj
    else
      let return_obj : MapOutput V :=
        if 0 < limit then
          { return_obj with
              partial_unexpected_index_list :=
                some (unexpected_index_list.map (fun uil => uil.take limit))
              partial_unexpected_counts :=
                some (partialUnexpectedCounts limit unexpected_list) }
        else return_obj
      if result_format = "SUMMARY" then .ok return_obj
      else
        let return_obj : MapOutput V :=
          { return_obj with
              unexpected_list := some unexpected_list
              unexpected_index_list := some unexpected_index_list }
        if result_format = "COMPLETE" then .ok return_obj
        else .error ("Unknown result_format " ++ result_format ++ ".")

/-- `optionCovers a b` holds when a key present in a lower-tier payload
(`a ≠ none`) is present with an identical value in a higher-tier payload;
an absent key imposes nothing. -/
def optionCovers {α : Type _} [DecidableEq α] (a b : Option α) : Bool :=
  match a with
  | none => true
  | some v => decide (b = some v)

/-- `o1.subsumes o2`: the `success` key agrees and every other key present
in payload `o1` is present with an identical value in payload `o2`. -/
def MapOutput.subsumes {V : Type} [DecidableEq V] (o1 o2 : MapOutput V) : Bool :=
  (o1.success == o2.success) &&
  optionCovers o1.element_count o2.element_count &&
  optionCovers o1.unexpected_count o2.unexpected_count &&
  optionCovers o1.unexpected_percent o2.unexpected_percent &&
  optionCovers o1.partial_unexpected_list o2.partial_unexpected_list &&
  optionCovers o1.missing_count o2.missing_count &&
  optionCovers o1.missing_percent o2.missing_percent &&
  optionCovers o1.unexpected_percent_nonmissing o2.unexpected_percent_nonmissing &&
  optionCovers o1.partial_unexpected_index_list o2.partial_unexpected_index_list &&
  optionCovers o1.partial_unexpected_counts o2.partial_unexpected_counts &&
  optionCovers o1.unexpected_list o2.unexpected_list &&
  optionCovers o1.unexpected_index_list o2.unexpected_index_list

/-! ## Map-expectation success logic: `ColumnMapExpectation._validate` and
`ColumnPairMapExpectation._validate`

Both bodies compute `success` identically from the three resolved metrics.
Metric values that may be `None` are `Option ℚ`; Python's float division of
counts is exact division in `ℚ`. -/

/-- The `success` computation of `ColumnMapExpectation._validate`
(expectation.py): vacuously true when `table.row_count` or the null count is
unknown; ratio comparison when the denominator is nonzero; true otherwise.
The final `false` mirrors `success = None` surviving the `if/elif` chain,
which is unreachable. -/
def columnMapValidateSuccess (total_count null_count : Option ℚ)
    (unexpected_count mostly : ℚ) : Bool :=
  match total_count, null_count with
  | some t, some n =>
    if t - n ≠ 0 then
      decide ((t - unexpected_count - n) / (t - n) ≥ mostly)
    else if t = 0 ∨ t - n = 0 then true
    else false
  | _, _ => true

/-- The `success` computation of `ColumnPairMapExpectation._validate`
(expectation.py); its source is textually identical to the column-map one. -/
def columnPairMapValidateSuccess (total_count null_count : Option ℚ)
    (unexpected_count mostly : ℚ) : Bool :=
  match total_count, null_count with
  | some t, some n =>
    if t - n ≠ 0 then
      decide ((t - unexpected_count - n) / (t - n) ≥ mostly)
    else if t = 0 ∨ t - n = 0 then true
    else false
  | _, _ => true

/-! ## Validation dependencies: `get_validation_dependencies`

The functions return `{"result_format": ..., "metrics": {...}}`; the claims
are about the keys of the `metrics` dict, which we embed as the list of keys
in insertion order.  `TableExpectation.get_validation_dependencies` starts
from an empty dict (`metric_dependencies` is asserted to be the empty tuple),
so the keys are exactly the ones inserted by the subclass methods.
`result_format` is the resolved `result_format` string and `isPandasEngine`
the `isinstance(execution_engine, PandasExecutionEngine)` test. -/

/-- Metric keys requested by `ColumnMapExpectation.get_validation_dependencies`
(expectation.py), in insertion order. -/
def columnMapExpectationMetrics (map_metric : String) (result_format : String)
    (isPandasEngine : Bool) : List String :=
  let ms := ["column_values.nonnull.unexpected_count",
             map_metric ++ ".unexpected_count",
             "table.row_count"]
  if result_format = "BOOLEAN_ONLY" then ms
  else
    let ms := ms ++ [map_metric ++ ".unexpected_values"]
    if result_format = "BASIC" ∨ result_format = "SUMMARY" then ms
    else
      let ms := ms ++ [map_metric ++ ".unexpected_rows"]
      if isPandasEngine then ms ++ [map_metric ++ ".unexpected_index_list"]
      else ms

/-- Metric keys requested by
`ColumnPairMapExpectation.get_validation_dependencies` (expectation.py), in
insertion order.  Unlike the column-map variant, `table.row_count` is only
added after the `BOOLEAN_ONLY` early return. -/
def columnPairMapExpectationMetrics (map_metric : String) (result_format : String)
    (isPandasEngine : Bool) : List String :=
  let ms := ["column_values.nonnull.unexpected_count",
             map_metric ++ ".unexpected_count"]
  if result_format = "BOOLEAN_ONLY" then ms
  else
    let ms := ms ++ ["table.row_count", map_metric ++ ".unexpected_values"]
    if result_format = "BASIC" ∨ result_format = "SUMMARY" then ms
    else
      let ms := ms ++ [map_metric ++ ".unexpected_rows"]
      if isPandasEngine then ms ++ [map_metric ++ ".unexpected_index_list"]
      else ms

/-! ## Spark execution engine: `get_compute_domain` and `resolve_metric_bundle`

The engine holds batches of an opaque dataframe type `D`.  The backend
operations used by the two methods (`DataFrame.filter` on a native condition,
`filter` on a condition produced by `parse_condition_to_spark`, and
`df.agg(*cols).collect()`) are opaque capability providers, embedded as
fields of a `SparkBackend`.  `Agg` is the type of aggregate column
expressions, `V` the type of result values. -/

/-- Backend operations of the Spark engine that the embedded methods call. -/
structure SparkBackend (D Agg V : Type) where
  filterSpark : D → String → D
  filterParsed : D → String → D
  aggCollect : D → List Agg → List (List V)

/-- The engine state used by `get_compute_domain`: the active batch and the
dictionary of loaded batches. -/
structure SparkEngine (D : Type) where
  active_batch_data : Option D
  loaded_batch_data : List (String × D)

/-- Domain kwargs as used by the Spark engine: the keys the method reads,
plus `extra` for any other keys, which pass through untouched.  A key absent
from the mapping is `none`. -/
structure DomainKwargs where
  batch_id : Option String
  table : Option String
  row_condition : Option String
  conditionParser : Option String
  column : Option String
  extra : List (String × String)
deriving DecidableEq, Repr

/-- Python truthiness of `domain_kwargs.get(key, None)` for a string-valued
key: `None` and the empty string are falsy. -/
def truthyStrOpt : Option String → Bool
  | none => false
  | some s => s ≠ ""

/-- Batch selection at the top of `get_compute_domain`: the explicitly named
batch if a `batch_id` is given, else the active batch. -/
def getBatchData {D : Type} (eng : SparkEngine D) (batch_id : Option String) :
    Except String D :=
  match batch_id with
  | none =>
    match eng.active_batch_data with
    | some d => .ok d
    | none => .error "No batch is specified, but could not identify a loaded batch."
  | some bid =>
    match eng.loaded_batch_data.lookup bid with
    | some d => .ok d
    | none => .error ("Unable to find batch with batch_id " ++ bid)

/-- The row-condition block of `get_compute_domain`: a truthy
`row_condition` is applied through the parser selected by
`conditionParser`; an unrecognized parser raises. -/
def applyRowCondition {D Agg V : Type} (B : SparkBackend D Agg V) (data : D)
    (row_condition conditionParser : Option String) : Except String D :=
  match row_condition with
  | some rc =>
    if rc ≠ "" then
      if conditionParser = some "spark" then .ok (B.filterSpark data rc)
      else if conditionParser = some "great_expectations__experimental__" then
        .ok (B.filterParsed data rc)
      else .error "unrecognized conditionParser for Spark execution engine"
    else .ok data
  | none => .ok data

/-- Embedding of `SparkDFExecutionEngine.get_compute_domain`
(sparkdf_execution_engine.py).  Returns the data to compute on, the
`compute_domain_kwargs` (a deep copy of the input with the `column` key
popped), and the `accessor_domain_kwargs` (which holds only the popped
`column` key, embedded as the optional column name).  Every `raise` is
`Except.error`. -/
def getComputeDomain {D Agg V : Type} (B : SparkBackend D Agg V)
    (eng : SparkEngine D) (domain_kwargs : DomainKwargs) :
    Except String (D × DomainKwargs × Option String) :=
  match getBatchData eng domain_kwargs.batch_id with
  | .error e => .error e
  | .ok data =>
    if truthyStrOpt domain_kwargs.table then
      .error "SparkExecutionEngine does not currently support multiple named tables."
    else
      match applyRowCondition B data domain_kwargs.row_condition
          domain_kwargs.conditionParser with
      | .error e => .error e
      | .ok data =>
        .ok (data, { domain_kwargs with column := none }, domain_kwargs.column)

/-! ### `resolve_metric_bundle`

Each element of `metric_fn_bundle` is a `(metric_to_resolve, metric_provider,
metric_provider_kwargs)` triple; calling the provider yields a
`(column_aggregate, domain_kwargs)` pair.  A `BundleItem` records the
provider's declared `metric_fn_type`, the pair the provider call returns, and
`metric_to_resolve.id`.  `IDDict.to_id` is a deterministic content hash of
the kwargs, so grouping by id is embedded as grouping by the kwargs value. -/

/-- One element of the `metric_fn_bundle` iterable: the provider's
`metric_fn_type`, the `(column_aggregate, domain_kwargs)` pair its call
returns, and the metric configuration's `id`. -/
structure BundleItem (Agg : Type) where
  fn_type : String
  agg : Agg
  domain : DomainKwargs
  id : String

/-- One entry of the `aggregates` dict of `resolve_metric_bundle`: the group
key (`domain_kwargs`) with the `column_aggregates` and `ids` lists. -/
structure MetricGroup (Agg : Type) where
  domain : DomainKwargs
  aggs : List Agg
  ids : List String

/-- Appending a bundle item to the `aggregates` dict: if a group with the
item's domain kwargs exists, append the aggregate and id to it, else create
a new entry at the end (Python dict insertion order). -/
def insertBundleItem {Agg : Type} : List (MetricGroup Agg) → BundleItem Agg →
    List (MetricGroup Agg)
  | [], b => [⟨b.domain, [b.agg], [b.id]⟩]
  | g :: gs, b =>
    if g.domain = b.domain then
      ⟨g.domain, g.aggs ++ [b.agg], g.ids ++ [b.id]⟩ :: gs
    else
      g :: insertBundleItem gs b

/-- The first (grouping) loop of `resolve_metric_bundle`: asserts each
provider is an `aggregate_fn` and files its aggregate and metric id under the
domain id of the kwargs the provider reports. -/
def groupBundleAux {Agg : Type} (acc : List (MetricGroup Agg)) :
    List (BundleItem Agg) → Except String (List (MetricGroup Agg))
  | [] => .ok acc
  | b :: bs =>
    if b.fn_type = "aggregate_fn" then
      groupBundleAux (insertBundleItem acc b) bs
    else .error "resolve_metric_bundle only supports aggregate metrics"

/-- Grouping of the metric bundle by compute-domain id. -/
def groupBundle {Agg : Type} (bundle : List (BundleItem Agg)) :
    Except String (List (MetricGroup Agg)) :=
  groupBundleAux [] bundle

/-- Record of one aggregation pass against the backend: the domain it was
run for, the aggregate expressions and metric ids of the group, and the
single result row `res[0]` the backend returned. -/
structure AggPass (Agg V : Type) where
  domain : DomainKwargs
  aggs : List Agg
  ids : List String
  row : List V

/-- Python dict assignment `d[k] = v` on an association list: overwrite in
place if the key exists, else append. -/
def dictInsert {V : Type} : List (String × V) → String × V → List (String × V)
  | [], kv => [kv]
  | (k, v) :: rest, kv =>
    if k = kv.1 then (k, kv.2) :: rest else (k, v) :: dictInsert rest kv

/-- The second loop of `resolve_metric_bundle`: for each group, resolve its
compute domain, assert the returned `compute_domain_kwargs` equals the
group's `domain_kwargs`, run one aggregation pass, assert the result is a
single row with one value per metric id, and emit the per-id assignments in
order.  Returns the list of passes performed and the assignment list.
Failed `assert`s are `Except.error`. -/
def runMetricGroups {D Agg V : Type} (B : SparkBackend D Agg V)
    (eng : SparkEngine D) :
    List (MetricGroup Agg) → Except String (List (AggPass Agg V) × List (String × V))
  | [] => .ok ([], [])
  | g :: gs =>
    match getComputeDomain B eng g.domain with
    | .error e => .error e
    | .ok (df, compute_domain_kwargs, _) =>
      if compute_domain_kwargs = g.domain then
        if g.aggs.length = g.ids.length then
          match B.aggCollect df g.aggs with
          | [row] =>
            if g.ids.length = row.length then
              match runMetricGroups B eng gs with
              | .error e => .error e
              | .ok (passes, assigns) =>
                .ok (⟨g.domain, g.aggs, g.ids, row⟩ :: passes, g.ids.zip row ++ assigns)
            else .error "unexpected number of metrics returned"
          | _ => .error "all bundle-computed metrics must be single-value statistics"
        else .error "aggregates and ids must have equal length"
      else .error "Invalid compute domain returned from a bundled metric. Verify that its target compute domain is a valid compute domain."

/-- Embedding of `SparkDFExecutionEngine.resolve_metric_bundle`
(sparkdf_execution_engine.py).  In addition to the `resolved_metrics` dict
(an association list with Python dict assignment semantics), it returns the
trace of aggregation passes performed against the backend, one per entry of
the `aggregates` dict. -/
def resolveMetricBundle {D Agg V : Type} (B : SparkBackend D Agg V)
    (eng : SparkEngine D) (bundle : List (BundleItem Agg)) :
    Except String (List (AggPass Agg V) × List (String × V)) :=
  match groupBundle bundle with
  | .error e => .error e
  | .ok groups =>
    match runMetricGroups B eng groups with
    | .error e => .error e
    | .ok (passes, assigns) => .ok (passes, assigns.foldl dictInsert [])

/-- A one-dataframe backend for concrete witnesses: filters are the identity
and an aggregation pass echoes the aggregate expressions as its single row. -/
def natBackend : SparkBackend Nat Nat Nat :=
  ⟨fun d _ => d, fun d _ => d, fun _ aggs => [aggs]⟩

/-- An engine with one active batch, for concrete witnesses. -/
def natEngine : SparkEngine Nat := ⟨some 0, []⟩

/-- A two-element aggregate bundle over one shared compute domain, for
concrete witnesses. -/
def bundleTwo : List (BundleItem Nat) :=
  [⟨"aggregate_fn", 11, ⟨none, none, none, none, none, []⟩, "m1"⟩,
   ⟨"aggregate_fn", 22, ⟨none, none, none, none, none, []⟩, "m2"⟩]

/-! ## Helper lemmas on strings -/

/-- A string of the form `m ++ suf` never equals `fix` when `suf` is longer
than `fix` or differs from `fix`'s ending. -/
theorem append_ne_of_suffix_mismatch (m suf fix : String)
    (h : fix.data.length < suf.data.length ∨
         fix.data.drop (fix.data.length - suf.data.length) ≠ suf.data) :
    m ++ suf ≠ fix := by
  intro he
  have hd : m.data ++ suf.data = fix.data := by
    rw [← String.data_append, he]
  rcases h with h | h
  · have hlen := congrArg List.length hd
    simp only [List.length_append] at hlen
    omega
  · have hlen := congrArg List.length hd
    simp only [List.length_append] at hlen
    have hsplit : fix.data.take (fix.data.length - suf.data.length) ++
        fix.data.drop (fix.data.length - suf.data.length) = fix.data :=
      List.take_append_drop _ _
    rw [← hsplit] at hd
    have hl2 : suf.data.length =
        (fix.data.drop (fix.data.length - suf.data.length)).length := by
      simp only [List.length_drop]
      omega
    exact h (List.append_inj_right' hd hl2).symm

/-- Appending different suffixes to the same string yields different
strings. -/
theorem append_ne_append_of_ne (m a b : String) (h : a.data ≠ b.data) :
    m ++ a ≠ m ++ b := by
  intro he
  have hd : m.data ++ a.data = m.data ++ b.data := by
    rw [← String.data_append, ← String.data_append, he]
  exact h (List.append_cancel_left hd)

/-! ## Helper lemmas on lists and orderings -/

theorem mem_firstDedupAux {α : Type _} [DecidableEq α] (l : List α) :
    ∀ (seen : List α) (x : α), x ∈ firstDedupAux seen l ↔ x ∈ l ∧ x ∉ seen := by
  induction l with
  | nil => intro seen x; simp [firstDedupAux]
  | cons a l ih =>
    intro seen x
    by_cases ha : a ∈ seen <;> by_cases hx : x = a <;>
      simp [firstDedupAux, ha, hx, ih]

theorem nodup_firstDedupAux {α : Type _} [DecidableEq α] (l : List α) :
    ∀ seen : List α, (firstDedupAux seen l).Nodup := by
  induction l with
  | nil => intro seen; simp [firstDedupAux]
  | cons a l ih =>
    intro seen
    by_cases ha : a ∈ seen
    · simpa [firstDedupAux, ha] using ih seen
    · rw [firstDedupAux, if_neg ha]
      refine List.Nodup.cons ?_ (ih (a :: seen))
      intro hmem
      exact ((mem_firstDedupAux l (a :: seen) a).mp hmem).2 (List.mem_cons_self a _)

theorem mem_firstDedup {α : Type _} [DecidableEq α] (l : List α) (x : α) :
    x ∈ firstDedup l ↔ x ∈ l := by
  simp [firstDedup, mem_firstDedupAux]

theorem nodup_firstDedup {α : Type _} [DecidableEq α] (l : List α) :
    (firstDedup l).Nodup := nodup_firstDedupAux l []

theorem mem_counterItems {V : Type _} [DecidableEq V] (l : List V) (p : V × ℕ) :
    p ∈ counterItems l ↔ p.1 ∈ l ∧ p.2 = l.count p.1 := by
  rcases p with ⟨v, c⟩
  simp only [counterItems, List.mem_map, mem_firstDedup]
  constructor
  · rintro ⟨w, hw, heq⟩
    obtain ⟨rfl, rfl⟩ : w = v ∧ l.count w = c := by
      constructor <;> [exact congrArg Prod.fst heq; exact congrArg Prod.snd heq]
    exact ⟨hw, rfl⟩
  · rintro ⟨hv, rfl⟩
    exact ⟨v, hv, rfl⟩

theorem map_fst_counterItems {V : Type _} [DecidableEq V] (l : List V) :
    (counterItems l).map Prod.fst = firstDedup l := by
  rw [counterItems, List.map_map]
  have hid : (Prod.fst ∘ fun v => (v, l.count v)) = fun v : V => v := rfl
  rw [hid]
  exact List.map_id _

instance countValRelTotal {V : Type _} [LinearOrder V] :
    IsTotal (V × ℕ) countValRel := by
  constructor
  intro a b
  rcases lt_trichotomy b.2 a.2 with h | h | h
  · exact Or.inl (Or.inl h)
  · rcases le_total a.1 b.1 with hv | hv
    · exact Or.inl (Or.inr ⟨h.symm, hv⟩)
    · exact Or.inr (Or.inr ⟨h, hv⟩)
  · exact Or.inr (Or.inl h)

instance countValRelTrans {V : Type _} [LinearOrder V] :
    IsTrans (V × ℕ) countValRel := by
  constructor
  intro a b c hab hbc
  rcases hab with h1 | ⟨h1, hv1⟩ <;> rcases hbc with h2 | ⟨h2, hv2⟩
  · exact Or.inl (h2.trans h1)
  · exact Or.inl (h2 ▸ h1)
  · exact Or.inl (h1 ▸ h2)
  · exact Or.inr ⟨h1.trans h2, hv1.trans hv2⟩

instance countDescRelTotal {V : Type _} : IsTotal (V × ℕ) countDescRel := by
  constructor
  intro a b
  exact (Nat.le_total b.2 a.2).imp id id

instance countDescRelTrans {V : Type _} : IsTrans (V × ℕ) countDescRel := by
  constructor
  intro a b c hab hbc
  exact hbc.trans hab

/-- `firstDedupAux seen l` keeps exactly the first occurrences not in `seen`. -/
theorem firstDedupAux_eq_filter {α : Type _} [DecidableEq α] (l : List α) :
    ∀ seen : List α,
      firstDedupAux seen l = (firstDedup l).filter (fun y => y ∉ seen) := by
  induction l with
  | nil => intro seen; simp [firstDedupAux, firstDedup]
  | cons a l ih =>
    intro seen
    have hfd : firstDedup (a :: l) = a :: firstDedupAux [a] l := by
      rw [firstDedup, firstDedupAux, if_neg (List.not_mem_nil a)]
    by_cases ha : a ∈ seen
    · rw [firstDedupAux, if_pos ha, hfd, ih [a]]
      rw [List.filter_cons]
      simp only [ha, decide_not, List.mem_singleton]
      rw [if_neg (by simp [ha])]
      rw [List.filter_filter, ih seen]
      refine List.filter_congr ?_
      intro y hy
      by_cases hys : y ∈ seen
      · simp [hys]
      · have hya : y ≠ a := fun he => hys (he ▸ ha)
        simp [hys, hya]
    · rw [firstDedupAux, if_neg ha, hfd, ih (a :: seen), ih [a]]
      rw [List.filter_cons]
      rw [if_pos (by simp [ha])]
      rw [List.filter_filter]
      congr 1
      refine List.filter_congr ?_
      intro y hy
      by_cases hya : y = a
      · simp [hya, List.mem_cons]
      · simp [hya, List.mem_cons]

/-- Unfolding `firstDedup` over a cons cell. -/
theorem firstDedup_cons {α : Type _} [DecidableEq α] (x : α) (l : List α) :
    firstDedup (x :: l) = x :: (firstDedup l).filter (fun y => y ≠ x) := by
  rw [firstDedup, firstDedupAux, if_neg (List.not_mem_nil x),
    firstDedupAux_eq_filter]
  congr 1
  refine List.filter_congr ?_
  intro y hy
  simp

/-- When the item's domain already heads a group (domains distinct), the
insertion extends that group in place. -/
theorem insertBundleItem_mem {Agg : Type} (b : BundleItem Agg) :
    ∀ gs : List (MetricGroup Agg),
      b.domain ∈ gs.map (fun g => g.domain) →
      (gs.map (fun g => g.domain)).Nodup →
      insertBundleItem gs b =
        gs.map (fun g =>
          if g.domain = b.domain then
            ⟨g.domain, g.aggs ++ [b.agg], g.ids ++ [b.id]⟩
          else g) := by
  intro gs
  induction gs with
  | nil => intro h; simp at h
  | cons g gs ih =>
    intro h hnd
    rw [insertBundleItem]
    by_cases hg : g.domain = b.domain
    · rw [if_pos hg, List.map_cons, if_pos hg]
      congr 1
      have hnotin : ∀ g' ∈ gs, g'.domain ≠ b.domain := by
        intro g' hg' he
        have hhead := (List.nodup_cons.mp hnd).1
        apply hhead
        have hgg : g'.domain = g.domain := he.trans hg.symm
        show g.domain ∈ List.map (fun g => g.domain) gs
        rw [← hgg]
        exact List.mem_map_of_mem (fun x => x.domain) hg'
      calc gs = gs.map (fun g' => g') := (List.map_id _).symm
        _ = gs.map (fun g' =>
              if g'.domain = b.domain then
                ⟨g'.domain, g'.aggs ++ [b.agg], g'.ids ++ [b.id]⟩
              else g') := by
            refine List.map_congr_left ?_
            intro g' hg'
            rw [if_neg (hnotin g' hg')]
    · rw [if_neg hg]
      have hmem : b.domain ∈ gs.map (fun g => g.domain) := by
        rcases List.mem_cons.mp h with he | hm
        · exact absurd he.symm hg
        · exact hm
      rw [ih hmem (List.nodup_cons.mp hnd).2, List.map_cons, if_neg hg]

/-- When the item's domain is new, the insertion appends a fresh group. -/
theorem insertBundleItem_notmem {Agg : Type} (b : BundleItem Agg) :
    ∀ gs : List (MetricGroup Agg),
      b.domain ∉ gs.map (fun g => g.domain) →
      insertBundleItem gs b = gs ++ [⟨b.domain, [b.agg], [b.id]⟩] := by
  intro gs
  induction gs with
  | nil => intro _; rfl
  | cons g gs ih =>
    intro h
    have hg : g.domain ≠ b.domain := by
      intro he
      exact h (he ▸ List.mem_map_of_mem (fun x => x.domain) (List.mem_cons_self g gs))
    rw [insertBundleItem, if_neg hg,
      ih (fun hm => h (List.mem_cons_of_mem _ hm)), List.cons_append]

/-- The group domains after an insertion. -/
theorem insertBundleItem_map_domain {Agg : Type} (b : BundleItem Agg) :
    ∀ gs : List (MetricGroup Agg),
      (insertBundleItem gs b).map (fun g => g.domain) =
        if b.domain ∈ gs.map (fun g => g.domain) then gs.map (fun g => g.domain)
        else gs.map (fun g => g.domain) ++ [b.domain] := by
  intro gs
  induction gs with
  | nil => simp [insertBundleItem]
  | cons g gs ih =>
    rw [insertBundleItem]
    by_cases hg : g.domain = b.domain
    · rw [if_pos hg, List.map_cons, List.map_cons,
        if_pos (List.mem_cons.mpr (Or.inl hg.symm))]
    · rw [if_neg hg, List.map_cons, List.map_cons, ih]
      have hiff : (b.domain ∈ g.domain :: gs.map (fun g => g.domain)) ↔
          b.domain ∈ gs.map (fun g => g.domain) := by
        rw [List.mem_cons]
        exact or_iff_right (fun he => hg he.symm)
      by_cases hm : b.domain ∈ gs.map (fun g => g.domain)
      · rw [if_pos hm, if_pos (hiff.mpr hm)]
      · rw [if_neg hm, if_neg (fun hmm => hm (hiff.mp hmm)), List.cons_append]

/-- Insertion preserves distinctness of group domains. -/
theorem nodup_insertBundleItem {Agg : Type} (b : BundleItem Agg)
    (gs : List (MetricGroup Agg))
    (hnd : (gs.map (fun g => g.domain)).Nodup) :
    ((insertBundleItem gs b).map (fun g => g.domain)).Nodup := by
  rw [insertBundleItem_map_domain]
  by_cases hm : b.domain ∈ gs.map (fun g => g.domain)
  · rwa [if_pos hm]
  · rw [if_neg hm]
    simp [List.nodup_append, hnd, hm]

/-- `firstDedup` over an appended element. -/
theorem firstDedup_append_singleton {α : Type _} [DecidableEq α] (l : List α)
    (x : α) :
    firstDedup (l ++ [x]) =
      if x ∈ l then firstDedup l else firstDedup l ++ [x] := by
  induction l with
  | nil => simp [firstDedup, firstDedupAux]
  | cons a l ih =>
    rw [List.cons_append, firstDedup_cons, firstDedup_cons, ih]
    by_cases hx : x ∈ l
    · rw [if_pos hx, if_pos (List.mem_cons_of_mem a hx)]
    · rw [if_neg hx]
      by_cases hxa : x = a
      · rw [if_pos (by simp [hxa]), List.filter_append]
        simp [hxa]
      · rw [if_neg (by simp [List.mem_cons, hxa, hx]), List.filter_append]
        simp [hxa]

/-- The grouping loop of `resolve_metric_bundle`: group domains are the
distinct item domains in first-occurrence order, and each group collects the
aggregates and metric ids of its domain's items in declaration order. -/
theorem groupFold_spec {Agg : Type} (bundle : List (BundleItem Agg)) :
    ((bundle.foldl insertBundleItem []).map (fun g => g.domain) =
       firstDedup (bundle.map (fun b => b.domain))) ∧
    (((bundle.foldl insertBundleItem []).map (fun g => g.domain)).Nodup) ∧
    (∀ g ∈ bundle.foldl insertBundleItem [],
       g.aggs = (bundle.filter (fun x => x.domain = g.domain)).map (fun x => x.agg) ∧
       g.ids = (bundle.filter (fun x => x.domain = g.domain)).map (fun x => x.id)) := by
  induction bundle using List.reverseRecOn with
  | nil => simp [firstDedup, firstDedupAux]
  | append_singleton bs b ih =>
    obtain ⟨ihdom, ihnd, ihg⟩ := ih
    rw [List.foldl_append, List.foldl_cons, List.foldl_nil]
    rw [List.map_append]
    simp only [List.map_cons, List.map_nil]
    rw [firstDedup_append_singleton]
    have hmem_iff : b.domain ∈ (bs.foldl insertBundleItem []).map (fun g => g.domain) ↔
        b.domain ∈ bs.map (fun x => x.domain) := by
      rw [ihdom, mem_firstDedup]
    by_cases hm : b.domain ∈ (bs.foldl insertBundleItem []).map (fun g => g.domain)
    · rw [insertBundleItem_mem b _ hm ihnd]
      have hdom1 : ((bs.foldl insertBundleItem []).map (fun g =>
          if g.domain = b.domain then
            (⟨g.domain, g.aggs ++ [b.agg], g.ids ++ [b.id]⟩ : MetricGroup Agg)
          else g)).map (fun g => g.domain) =
          (bs.foldl insertBundleItem []).map (fun g => g.domain) := by
        rw [List.map_map]
        refine List.map_congr_left ?_
        intro g _
        by_cases hgb : g.domain = b.domain <;> simp [hgb]
      rw [hdom1]
      refine ⟨?_, ?_, ?_⟩
      · rw [if_pos (hmem_iff.mp hm)]
        exact ihdom
      · exact ihnd
      · intro g' hg'
        obtain ⟨g, hg, rfl⟩ := List.mem_map.mp hg'
        by_cases hgb : g.domain = b.domain
        · rw [if_pos hgb]
          obtain ⟨ha, hi⟩ := ihg g hg
          constructor
          · show g.aggs ++ [b.agg] = _
            rw [List.filter_append, List.map_append, ← ha]
            congr 1
            simp [List.filter_cons, hgb.symm]
          · show g.ids ++ [b.id] = _
            rw [List.filter_append, List.map_append, ← hi]
            congr 1
            simp [List.filter_cons, hgb.symm]
        · rw [if_neg hgb]
          obtain ⟨ha, hi⟩ := ihg g hg
          have hfb : ([b].filter (fun x => x.domain = g.domain)) = [] := by
            simp [List.filter_cons]
            exact fun he => hgb he.symm
          constructor
          · rw [List.filter_append, hfb, List.append_nil, ← ha]
          · rw [List.filter_append, hfb, List.append_nil, ← hi]
    · rw [insertBundleItem_notmem b _ hm]
      refine ⟨?_, ?_, ?_⟩
      · rw [if_neg (fun hmm => hm (hmem_iff.mpr hmm))]
        simp only [List.map_append, List.map_cons, List.map_nil]
        rw [ihdom]
      · simp only [List.map_append, List.map_cons, List.map_nil]
        rw [List.nodup_append]
        refine ⟨ihnd, List.nodup_singleton _, ?_⟩
        intro d hd
        simp only [List.mem_singleton]
        intro he
        exact hm (he ▸ hd)
      · intro g' hg'
        rcases List.mem_append.mp hg' with hg | hg
        · obtain ⟨ha, hi⟩ := ihg g' hg
          have hgb : g'.domain ≠ b.domain := by
            intro he
            exact hm (he ▸ List.mem_map_of_mem (fun g => g.domain) hg)
          have hfb : ([b].filter (fun x => x.domain = g'.domain)) = [] := by
            simp [List.filter_cons]
            exact fun he => hgb he.symm
          constructor
          · rw [List.filter_append, hfb, List.append_nil, ← ha]
          · rw [List.filter_append, hfb, List.append_nil, ← hi]
        · have hg'' : g' = ⟨b.domain, [b.agg], [b.id]⟩ := by simpa using hg
          subst hg''
          have hfbs : (bs.filter (fun x => x.domain = b.domain)) = [] := by
            rw [List.filter_eq_nil_iff]
            intro x hx
            simp only [decide_eq_true_eq]
            intro he
            exact hm (hmem_iff.mpr (he ▸ List.mem_map_of_mem (fun x => x.domain) hx))
          constructor
          · show [b.agg] = _
            rw [List.filter_append, hfbs, List.nil_append]
            simp [List.filter_cons]
          · show [b.id] = _
            rw [List.filter_append, hfbs, List.nil_append]
            simp [List.filter_cons]

/-- A successful grouping pass implies every provider was an `aggregate_fn`. -/
theorem groupBundleAux_ok_all_aggregate {Agg : Type} (bs : List (BundleItem Agg)) :
    ∀ (acc gs : List (MetricGroup Agg)), groupBundleAux acc bs = .ok gs →
      ∀ b ∈ bs, b.fn_type = "aggregate_fn" := by
  induction bs with
  | nil => intro acc gs _ b hb; simp at hb
  | cons b bs ih =>
    intro acc gs h
    rw [groupBundleAux] at h
    by_cases hb : b.fn_type = "aggregate_fn"
    · rw [if_pos hb] at h
      intro x hx
      rcases List.mem_cons.mp hx with rfl | hx
      · exact hb
      · exact ih _ _ h x hx
    · rw [if_neg hb] at h
      exact absurd h (by simp)

/-- With all providers aggregate, grouping succeeds and folds the items. -/
theorem groupBundleAux_ok_eq {Agg : Type} (bs : List (BundleItem Agg)) :
    ∀ acc : List (MetricGroup Agg),
      (∀ b ∈ bs, b.fn_type = "aggregate_fn") →
      groupBundleAux acc bs = .ok (bs.foldl insertBundleItem acc) := by
  induction bs with
  | nil => intro acc _; rfl
  | cons b bs ih =>
    intro acc hall
    rw [groupBundleAux, if_pos (hall b (List.mem_cons_self _ _)), List.foldl_cons]
    exact ih _ (fun x hx => hall x (List.mem_cons_of_mem _ hx))

/-- A successful run maps groups one-to-one to aggregation passes whose
assertions all held, and emits the per-id assignments group by group. -/
theorem runMetricGroups_ok {D Agg V : Type} (B : SparkBackend D Agg V)
    (eng : SparkEngine D) :
    ∀ (gs : List (MetricGroup Agg)) (ps : List (AggPass Agg V))
      (assigns : List (String × V)),
      runMetricGroups B eng gs = .ok (ps, assigns) →
      ps.map (fun p => (p.domain, p.aggs, p.ids)) =
        gs.map (fun g => (g.domain, g.aggs, g.ids)) ∧
      (∀ p ∈ ps, ∃ df ak,
         getComputeDomain B eng p.domain = .ok (df, p.domain, ak) ∧
         B.aggCollect df p.aggs = [p.row] ∧ p.ids.length = p.row.length) ∧
      assigns = (ps.map (fun p => p.ids.zip p.row)).flatten := by
  intro gs
  induction gs with
  | nil =>
    intro ps assigns h
    rw [runMetricGroups] at h
    obtain ⟨hp, ha⟩ : ([] : List (AggPass Agg V)) = ps ∧
        ([] : List (String × V)) = assigns := by simpa using h
    subst hp; subst ha
    simp
  | cons g gs ih =>
    intro ps assigns h
    rw [runMetricGroups] at h
    cases hc : getComputeDomain B eng g.domain with
    | error e => rw [hc] at h; exact absurd h (by simp)
    | ok trip =>
      obtain ⟨df, ck, ak⟩ := trip
      rw [hc] at h
      dsimp only at h
      by_cases hck : ck = g.domain
      · rw [if_pos hck] at h
        by_cases hlen : g.aggs.length = g.ids.length
        · rw [if_pos hlen] at h
          cases hagg : B.aggCollect df g.aggs with
          | nil => rw [hagg] at h; exact absurd h (by simp)
          | cons row rest =>
            cases rest with
            | nil =>
              rw [hagg] at h
              dsimp only at h
              by_cases hl2 : g.ids.length = row.length
              · rw [if_pos hl2] at h
                cases hrec : runMetricGroups B eng gs with
                | error e => rw [hrec] at h; exact absurd h (by simp)
                | ok pr =>
                  obtain ⟨ps', assigns'⟩ := pr
                  rw [hrec] at h
                  dsimp only at h
                  obtain ⟨hps, hassigns⟩ :
                      (⟨g.domain, g.aggs, g.ids, row⟩ : AggPass Agg V) :: ps' = ps ∧
                      g.ids.zip row ++ assigns' = assigns := by simpa using h
                  subst hps; subst hassigns
                  obtain ⟨ih1, ih2, ih3⟩ := ih ps' assigns' hrec
                  refine ⟨?_, ?_, ?_⟩
                  · simp only [List.map_cons, ih1]
                  · intro p hp
                    rcases List.mem_cons.mp hp with rfl | hp
                    · rw [hck] at hc
                      exact ⟨df, ak, hc, hagg, hl2⟩
                    · exact ih2 p hp
                  · simp only [List.map_cons, List.flatten_cons, ih3]
              · rw [if_neg hl2] at h; exact absurd h (by simp)
            | cons r2 rest2 => rw [hagg] at h; exact absurd h (by simp)
        · rw [if_neg hlen] at h; exact absurd h (by simp)
      · rw [if_neg hck] at h; exact absurd h (by simp)

/-! ## Claim theorems -/

/-- Counterexample to C3 as stated: at BOOLEAN_ONLY,
`ColumnPairMapExpectation.get_validation_dependencies` returns before
`table.row_count` is added, so the metric set does not contain it. -/
theorem columnPairMap_row_count_counterexample :
    "table.row_count" ∉
      columnPairMapExpectationMetrics "column_values.pair_equal"
        "BOOLEAN_ONLY" false := by
  decide

/-- C3 (amended): for every result format among BOOLEAN_ONLY, BASIC,
SUMMARY, COMPLETE, both map-expectation classes request
`column_values.nonnull.unexpected_count` and `<map_metric>.unexpected_count`;
`ColumnMapExpectation` requests `table.row_count` at every format, while
`ColumnPairMapExpectation` requests it exactly at the formats other than
BOOLEAN_ONLY; `<map_metric>.unexpected_rows` is requested exactly at
COMPLETE, for both classes. -/
theorem mapExpectation_dependencies_amended :
    ∀ (m rf : String) (pandas : Bool),
      rf = "BOOLEAN_ONLY" ∨ rf = "BASIC" ∨ rf = "SUMMARY" ∨ rf = "COMPLETE" →
      ("column_values.nonnull.unexpected_count" ∈
          columnMapExpectationMetrics m rf pandas ∧
       "column_values.nonnull.unexpected_count" ∈
          columnPairMapExpectationMetrics m rf pandas) ∧
      (m ++ ".unexpected_count" ∈ columnMapExpectationMetrics m rf pandas ∧
       m ++ ".unexpected_count" ∈ columnPairMapExpectationMetrics m rf pandas) ∧
      "table.row_count" ∈ columnMapExpectationMetrics m rf pandas ∧
      ("table.row_count" ∈ columnPairMapExpectationMetrics m rf pandas ↔
        rf ≠ "BOOLEAN_ONLY") ∧
      (m ++ ".unexpected_rows" ∈ columnMapExpectationMetrics m rf pandas ↔
        rf = "COMPLETE") ∧
      (m ++ ".unexpected_rows" ∈ columnPairMapExpectationMetrics m rf pandas ↔
        rf = "COMPLETE") := by
  intro m rf pandas hrf
  have hne1 : m ++ ".unexpected_rows" ≠ "column_values.nonnull.unexpected_count" :=
    append_ne_of_suffix_mismatch _ _ _ (Or.inr (by decide))
  have hne2 : m ++ ".unexpected_rows" ≠ m ++ ".unexpected_count" :=
    append_ne_append_of_ne _ _ _ (by decide)
  have hne3 : m ++ ".unexpected_rows" ≠ "table.row_count" :=
    append_ne_of_suffix_mismatch _ _ _ (Or.inl (by decide))
  have hne4 : m ++ ".unexpected_rows" ≠ m ++ ".unexpected_values" :=
    append_ne_append_of_ne _ _ _ (by decide)
  have hne5 : "table.row_count" ≠ m ++ ".unexpected_count" :=
    fun he => append_ne_of_suffix_mismatch m ".unexpected_count" "table.row_count"
      (Or.inl (by decide)) he.symm
  rcases hrf with rfl | rfl | rfl | rfl <;>
    cases pandas <;>
      simp_all [columnMapExpectationMetrics, columnPairMapExpectationMetrics]

/-- Witness for C3 (amended): the COMPLETE format at a concrete map metric. -/
theorem mapExpectation_dependencies_witness :
    "table.row_count" ∈
      columnMapExpectationMetrics "column_values.pair_equal" "COMPLETE" false :=
  (mapExpectation_dependencies_amended "column_values.pair_equal" "COMPLETE"
    false (Or.inr (Or.inr (Or.inr rfl)))).2.2.1

/-- C1: For every ColumnMapExpectation and ColumnPairMapExpectation,
`_validate` computes success as: vacuously true when `table.row_count` or the
null count is unknown (`None`); otherwise, when `total_count - null_count ≠ 0`,
success is `(total_count - unexpected_count - null_count) /
(total_count - null_count) ≥ mostly`; otherwise true.  In particular
`total_count=10, null_count=2, unexpected_count=1` fails at `mostly=0.9` and
passes at `mostly=0.8`. -/
theorem mapExpectation_validate_success_spec :
    (∀ (total null : Option ℚ) (u m : ℚ), total = none ∨ null = none →
      columnMapValidateSuccess total null u m = true ∧
      columnPairMapValidateSuccess total null u m = true) ∧
    (∀ (t n u m : ℚ), t - n ≠ 0 →
      columnMapValidateSuccess (some t) (some n) u m =
        decide ((t - u - n) / (t - n) ≥ m) ∧
      columnPairMapValidateSuccess (some t) (some n) u m =
        decide ((t - u - n) / (t - n) ≥ m)) ∧
    (∀ (t n u m : ℚ), t - n = 0 →
      columnMapValidateSuccess (some t) (some n) u m = true ∧
      columnPairMapValidateSuccess (some t) (some n) u m = true) ∧
    (columnMapValidateSuccess (some 10) (some 2) 1 0.9 = false ∧
     columnPairMapValidateSuccess (some 10) (some 2) 1 0.9 = false) ∧
    (columnMapValidateSuccess (some 10) (some 2) 1 0.8 = true ∧
     columnPairMapValidateSuccess (some 10) (some 2) 1 0.8 = true) := by
  refine ⟨?_, ?_, ?_, ?_, ?_⟩
  · intro total null u m h
    rcases h with h | h
    · subst h
      exact ⟨rfl, rfl⟩
    · subst h
      rcases total with _ | t <;> exact ⟨rfl, rfl⟩
  · intro t n u m h
    constructor <;>
      · simp only [columnMapValidateSuccess, columnPairMapValidateSuccess]
        rw [if_pos h]
  · intro t n u m h
    constructor <;>
      · simp only [columnMapValidateSuccess, columnPairMapValidateSuccess]
        rw [if_neg (by simpa using h), if_pos (Or.inr h)]
  · constructor <;> norm_num [columnMapValidateSuccess, columnPairMapValidateSuccess]
  · constructor <;> norm_num [columnMapValidateSuccess, columnPairMapValidateSuccess]

/-- Witness for C1: the ratio branch applied at the concrete counts of the
claim. -/
theorem mapExpectation_validate_success_witness :
    columnMapValidateSuccess (some 10) (some 2) 1 0.9 =
      decide ((10 - 1 - 2 : ℚ) / (10 - 2) ≥ 0.9) :=
  (mapExpectation_validate_success_spec.2.1 10 2 1 0.9 (by norm_num)).1

/-- C6: `get_compute_domain` never returns a `compute_domain_kwargs` holding
a `column` key (the input's `column` is moved into the accessor kwargs), so
two accepted inputs differing only in their `column` value yield the same
`compute_domain_kwargs` (and the same data). -/
theorem getComputeDomain_column_spec :
    ∀ (D Agg V : Type) (B : SparkBackend D Agg V) (eng : SparkEngine D)
      (dk : DomainKwargs) (d : D) (ck : DomainKwargs) (ak : Option String),
      getComputeDomain B eng dk = .ok (d, ck, ak) →
      ck.column = none ∧ ak = dk.column ∧
      ∀ c' : Option String,
        getComputeDomain B eng { dk with column := c' } = .ok (d, ck, c') := by
  intro D Agg V B eng dk d ck ak h
  unfold getComputeDomain at h
  cases hB : getBatchData eng dk.batch_id with
  | error e => rw [hB] at h; exact absurd h (by simp)
  | ok data =>
    rw [hB] at h
    dsimp only at h
    by_cases ht : truthyStrOpt dk.table = true
    · rw [if_pos ht] at h; exact absurd h (by simp)
    · rw [if_neg ht] at h
      cases hR : applyRowCondition B data dk.row_condition dk.conditionParser with
      | error e => rw [hR] at h; exact absurd h (by simp)
      | ok data2 =>
        rw [hR] at h
        dsimp only at h
        obtain ⟨hd, hck, hak⟩ : data2 = d ∧ { dk with column := none } = ck ∧
            dk.column = ak := by simpa using h
        subst hd; subst hck; subst hak
        refine ⟨rfl, rfl, ?_⟩
        intro c'
        unfold getComputeDomain
        have h1 : ({ dk with column := c' } : DomainKwargs).batch_id = dk.batch_id := rfl
        have h2 : truthyStrOpt ({ dk with column := c' } : DomainKwargs).table =
            truthyStrOpt dk.table := rfl
        have h3 : ({ dk with column := c' } : DomainKwargs).row_condition =
            dk.row_condition := rfl
        have h4 : ({ dk with column := c' } : DomainKwargs).conditionParser =
            dk.conditionParser := rfl
        rw [h1, hB]
        dsimp only
        rw [h2, if_neg ht, h3, h4, hR]

/-- Witness for C6: a concrete engine and kwargs with a `column` key. -/
theorem getComputeDomain_column_witness :
    getComputeDomain natBackend natEngine ⟨none, none, none, none, some "x", []⟩ =
      .ok (0, ⟨none, none, none, none, none, []⟩, some "x") ∧
    (⟨none, none, none, none, none, []⟩ : DomainKwargs).column = none := by
  have h : getComputeDomain natBackend natEngine ⟨none, none, none, none, some "x", []⟩ =
      .ok (0, ⟨none, none, none, none, none, []⟩, some "x") := rfl
  exact ⟨h, (getComputeDomain_column_spec Nat Nat Nat natBackend natEngine
    ⟨none, none, none, none, some "x", []⟩ 0
    ⟨none, none, none, none, none, []⟩ (some "x") h).1⟩

/-- C7: a non-empty `row_condition` with a `conditionParser` that is neither
`"spark"` nor `"great_expectations__experimental__"` makes
`get_compute_domain` raise; no data is returned. -/
theorem getComputeDomain_unrecognized_parser_spec :
    ∀ (D Agg V : Type) (B : SparkBackend D Agg V) (eng : SparkEngine D)
      (dk : DomainKwargs) (rc : String),
      dk.row_condition = some rc → rc ≠ "" →
      dk.conditionParser ≠ some "spark" →
      dk.conditionParser ≠ some "great_expectations__experimental__" →
      ∃ msg, getComputeDomain B eng dk = .error msg := by
  intro D Agg V B eng dk rc hrc hne hp1 hp2
  unfold getComputeDomain
  cases hB : getBatchData eng dk.batch_id with
  | error e => exact ⟨e, rfl⟩
  | ok data =>
    dsimp only
    by_cases ht : truthyStrOpt dk.table = true
    · rw [if_pos ht]
      exact ⟨_, rfl⟩
    · rw [if_neg ht]
      have hR : applyRowCondition B data dk.row_condition dk.conditionParser =
          .error "unrecognized conditionParser for Spark execution engine" := by
        unfold applyRowCondition
        rw [hrc]
        dsimp only
        rw [if_pos hne, if_neg hp1, if_neg hp2]
      rw [hR]
      exact ⟨_, rfl⟩

/-- Witness for C7: a concrete unrecognized parser tag. -/
theorem getComputeDomain_unrecognized_parser_witness :
    ∃ msg,
      getComputeDomain natBackend natEngine
        ⟨none, none, some "x>1", some "bogus", none, []⟩ = .error msg :=
  getComputeDomain_unrecognized_parser_spec Nat Nat Nat natBackend natEngine
    ⟨none, none, some "x>1", some "bogus", none, []⟩ "x>1" rfl
    (by decide) (by decide) (by decide)

/-- C8: an unknown resolved `result_format` makes `_format_map_output` raise
rather than fall back to a default tier or return a payload. -/
theorem formatMapOutput_unknown_format_spec :
    ∀ (rf : String) (limit : ℕ) (s : Bool) (e : ℕ) (nn : Option ℕ) (u : ℕ)
      (ul : List String) (uil : Option (List ℕ)),
      rf ≠ "BOOLEAN_ONLY" → rf ≠ "BASIC" → rf ≠ "SUMMARY" → rf ≠ "COMPLETE" →
      ∃ msg, formatMapOutput rf limit s e nn u ul uil = .error msg := by
  intro rf limit s e nn u ul uil h1 h2 h3 h4
  exact ⟨"Unknown result_format " ++ rf ++ ".",
    by simp [formatMapOutput, h1, h2, h3, h4]⟩

/-- Witness for C8: the unknown format `"WEIRD"`. -/
theorem formatMapOutput_unknown_format_witness :
    ∃ msg, formatMapOutput "WEIRD" 2 true 10 (some 8) 1 ["a"] none = .error msg :=
  formatMapOutput_unknown_format_spec "WEIRD" 2 true 10 (some 8) 1 ["a"] none
    (by decide) (by decide) (by decide) (by decide)

/-- C9: at BASIC tier or higher with `element_count == 0`, the percent
fields are null and no division error occurs (the call still succeeds); for
`element_count > 0`, `unexpected_percent` is
`unexpected_count / element_count * 100`. -/
theorem formatMapOutput_percent_guard_spec :
    ∀ (V : Type) [DecidableEq V] [LinearOrder V] (rf : String),
      rf = "BASIC" ∨ rf = "SUMMARY" ∨ rf = "COMPLETE" →
      ∀ (limit : ℕ) (s : Bool) (nn : Option ℕ) (u : ℕ) (ul : List V)
        (uil : Option (List ℕ)),
        (formatMapOutput rf limit s 0 nn u ul uil).isOk = true ∧
        (∀ o, formatMapOutput rf limit s 0 nn u ul uil = .ok o →
          o.unexpected_percent = some none ∧
          (∀ mp, o.missing_percent = some mp → mp = none) ∧
          (∀ up, o.unexpected_percent_nonmissing = some up → up = none)) ∧
        (∀ e : ℕ, 0 < e → ∀ o, formatMapOutput rf limit s e nn u ul uil = .ok o →
          o.unexpected_percent = some (some ((u : ℚ) / (e : ℚ) * 100))) := by
  intro V _ _ rf hrf limit s nn u ul uil
  refine ⟨?_, ?_, ?_⟩
  · rcases hrf with rfl | rfl | rfl <;>
      rcases nn with _ | nn <;>
        by_cases hl : 0 < limit <;>
          simp [formatMapOutput, hl, Except.isOk, Except.toBool]
  · intro o ho
    rcases hrf with rfl | rfl | rfl <;>
      rcases nn with _ | nn <;>
        by_cases hl : 0 < limit <;>
          · simp [formatMapOutput, hl] at ho
            subst ho
            simp
  · intro e he o ho
    rcases hrf with rfl | rfl | rfl <;>
      rcases nn with _ | nn <;>
        by_cases hl : 0 < limit <;>
          · simp [formatMapOutput, hl, he] at ho
            subst ho
            simp

/-- Witness for C9: concrete BASIC call with `element_count = 0`. -/
theorem formatMapOutput_percent_guard_witness :
    (formatMapOutput "BASIC" 2 true 0 (some 0) 1 ["a"] none).isOk = true :=
  (formatMapOutput_percent_guard_spec String "BASIC" (Or.inl rfl) 2 true
    (some 0) 1 ["a"] none).1

/-- C10: with a resolved `partial_unexpected_count` limit of 0, the SUMMARY
and COMPLETE payloads omit `partial_unexpected_counts` and
`partial_unexpected_index_list` entirely. -/
theorem formatMapOutput_zero_limit_spec :
    ∀ (V : Type) [DecidableEq V] [LinearOrder V] (rf : String),
      rf = "SUMMARY" ∨ rf = "COMPLETE" →
      ∀ (s : Bool) (e : ℕ) (nn : Option ℕ) (u : ℕ) (ul : List V)
        (uil : Option (List ℕ)),
        (formatMapOutput rf 0 s e nn u ul uil).isOk = true ∧
        (∀ o, formatMapOutput rf 0 s e nn u ul uil = .ok o →
          o.partial_unexpected_counts = none ∧
          o.partial_unexpected_index_list = none) := by
  intro V _ _ rf hrf s e nn u ul uil
  refine ⟨?_, ?_⟩
  · rcases hrf with rfl | rfl <;> rcases nn with _ | nn <;>
      simp [formatMapOutput, Except.isOk, Except.toBool]
  · intro o ho
    rcases hrf with rfl | rfl <;>
      rcases nn with _ | nn <;>
        · simp [formatMapOutput] at ho
          subst ho
          simp

/-- C4: for a fixed raw input and truncation limit, the payloads at
BOOLEAN_ONLY, BASIC, SUMMARY, and COMPLETE form an increasing chain: every
key present in a lower tier is present with an identical value in every
higher tier. -/
theorem formatMapOutput_tier_monotone_spec :
    ∀ (V : Type) [DecidableEq V] [LinearOrder V] (limit : ℕ) (s : Bool)
      (e : ℕ) (nn : Option ℕ) (u : ℕ) (ul : List V) (uil : Option (List ℕ))
      (o1 o2 o3 o4 : MapOutput V),
      formatMapOutput "BOOLEAN_ONLY" limit s e nn u ul uil = .ok o1 →
      formatMapOutput "BASIC" limit s e nn u ul uil = .ok o2 →
      formatMapOutput "SUMMARY" limit s e nn u ul uil = .ok o3 →
      formatMapOutput "COMPLETE" limit s e nn u ul uil = .ok o4 →
      (o1.subsumes o2 && o2.subsumes o3 && o3.subsumes o4) = true := by
  intro V _ _ limit s e nn u ul uil o1 o2 o3 o4 h1 h2 h3 h4
  rcases nn with _ | nn <;>
    by_cases hl : 0 < limit <;>
      · simp [formatMapOutput, hl] at h1 h2 h3 h4
        subst h1; subst h2; subst h3; subst h4
        simp [MapOutput.subsumes, optionCovers]

/-- Witness for C4: the chain at a concrete input. -/
theorem formatMapOutput_tier_monotone_witness :
    ((⟨true, none, none, none, none, none, none, none, none, none, none,
        none⟩ : MapOutput String).subsumes
      ⟨true, some 0, some 0, some none, some ["a"], none, none, none, none,
        none, none, none⟩ &&
     (⟨true, some 0, some 0, some none, some ["a"], none, none, none, none,
        none, none, none⟩ : MapOutput String).subsumes
      ⟨true, some 0, some 0, some none, some ["a"], none, none, none,
        some none, some [("a", 1)], none, none⟩ &&
     (⟨true, some 0, some 0, some none, some ["a"], none, none, none,
        some none, some [("a", 1)], none, none⟩ : MapOutput String).subsumes
      ⟨true, some 0, some 0, some none, some ["a"], none, none, none,
        some none, some [("a", 1)], some ["a"], some none⟩) = true :=
  formatMapOutput_tier_monotone_spec String 1 true 0 none 0 ["a"] none
    _ _ _ _ rfl rfl rfl rfl

/-- Witness for C10: concrete SUMMARY call with limit 0. -/
theorem formatMapOutput_zero_limit_witness :
    (formatMapOutput "SUMMARY" 0 true 3 (some 3) 1 ["a", "b"] none).isOk = true :=
  (formatMapOutput_zero_limit_spec String "SUMMARY" (Or.inl rfl) true 3
    (some 3) 1 ["a", "b"] none).1

/-- C5: the `partial_unexpected_counts` field at SUMMARY (and COMPLETE)
lists the most frequent values of `unexpected_list` as (value, count) pairs,
ordered by descending count then ascending value, with at most `limit`
entries, each count being the value's multiplicity, no value listed twice,
and no omitted value strictly more frequent than a listed one; in particular
`["a","a","b"]` with limit 2 yields `[("a",2),("b",1)]`. -/
theorem formatMapOutput_partial_counts_spec :
    (∀ (V : Type) [DecidableEq V] [LinearOrder V] (rf : String),
       rf = "SUMMARY" ∨ rf = "COMPLETE" →
       ∀ (limit : ℕ) (s : Bool) (e : ℕ) (nn : Option ℕ) (u : ℕ) (ul : List V)
         (uil : Option (List ℕ)) (o : MapOutput V),
       0 < limit →
       formatMapOutput rf limit s e nn u ul uil = .ok o →
       o.partial_unexpected_counts = some (partialUnexpectedCounts limit ul) ∧
       List.Sorted countValRel (partialUnexpectedCounts limit ul) ∧
       (partialUnexpectedCounts limit ul).length ≤ limit ∧
       (∀ p ∈ partialUnexpectedCounts limit ul, p.1 ∈ ul ∧ p.2 = ul.count p.1) ∧
       ((partialUnexpectedCounts limit ul).map Prod.fst).Nodup ∧
       (∀ v ∈ ul, (∀ p ∈ partialUnexpectedCounts limit ul, p.1 ≠ v) →
          ∀ p ∈ partialUnexpectedCounts limit ul, ul.count v ≤ p.2)) ∧
    partialUnexpectedCounts 2 ["a", "a", "b"] = [("a", 2), ("b", 1)] := by
  constructor
  · intro V _ _ rf hrf limit s e nn u ul uil o hl ho
    have hfield : o.partial_unexpected_counts =
        some (partialUnexpectedCounts limit ul) := by
      rcases hrf with rfl | rfl <;>
        rcases nn with _ | nn <;>
          · simp [formatMapOutput, hl] at ho
            subst ho
            simp
    have hmemS : ∀ p ∈ partialUnexpectedCounts limit ul, p ∈ counterItems ul := by
      intro p hp
      rw [partialUnexpectedCounts, List.mem_insertionSort, mostCommon] at hp
      have hp2 := List.take_subset limit _ hp
      rwa [List.mem_insertionSort] at hp2
    refine ⟨hfield, List.sorted_insertionSort _ _, ?_, ?_, ?_, ?_⟩
    · rw [partialUnexpectedCounts, List.length_insertionSort, mostCommon]
      exact List.length_take_le _ _
    · intro p hp
      exact (mem_counterItems ul p).mp (hmemS p hp)
    · have h1 : ((counterItems ul).map Prod.fst).Nodup := by
        rw [map_fst_counterItems]
        exact nodup_firstDedup ul
      have h2 : ((List.insertionSort countDescRel (counterItems ul)).map
          Prod.fst).Nodup :=
        ((List.perm_insertionSort countDescRel (counterItems ul)).map
          Prod.fst).nodup_iff.mpr h1
      have h3 : ((mostCommon limit ul).map Prod.fst).Nodup := by
        rw [mostCommon]
        exact h2.sublist ((List.take_sublist limit _).map Prod.fst)
      exact ((List.perm_insertionSort countValRel (mostCommon limit ul)).map
        Prod.fst).nodup_iff.mpr h3
    · intro v hv hnot p hp
      have hp' : p ∈ (List.insertionSort countDescRel (counterItems ul)).take limit := by
        rw [partialUnexpectedCounts, List.mem_insertionSort, mostCommon] at hp
        exact hp
      have hvc : (v, ul.count v) ∈
          List.insertionSort countDescRel (counterItems ul) := by
        rw [List.mem_insertionSort]
        exact (mem_counterItems ul (v, ul.count v)).mpr ⟨hv, rfl⟩
      rw [← List.take_append_drop limit
        (List.insertionSort countDescRel (counterItems ul))] at hvc
      rcases List.mem_append.mp hvc with hin | hout
      · have hmemout : (v, ul.count v) ∈ partialUnexpectedCounts limit ul := by
          rw [partialUnexpectedCounts, List.mem_insertionSort, mostCommon]
          exact hin
        exact absurd rfl (hnot _ hmemout)
      · have hsorted : List.Sorted countDescRel
            (List.insertionSort countDescRel (counterItems ul)) :=
          List.sorted_insertionSort _ _
        rw [← List.take_append_drop limit
          (List.insertionSort countDescRel (counterItems ul))] at hsorted
        exact (List.pairwise_append.mp hsorted).2.2 p hp' _ hout
  · decide

/-- Witness for C5: the ordering property at the concrete example input. -/
theorem formatMapOutput_partial_counts_witness :
    List.Sorted countValRel (partialUnexpectedCounts 2 ["a", "a", "b"]) :=
  (formatMapOutput_partial_counts_spec.1 String "SUMMARY" (Or.inl rfl)
    2 true 0 none 0 ["a", "a", "b"] none
    ⟨true, some 0, some 0, some none, some ["a", "a"], none, none, none,
      some none, some [("a", 2), ("b", 1)], none, none⟩
    (by decide) (by rfl)).2.1

/-- C2: `resolve_metric_bundle` groups the bundled metrics by the compute
domain kwargs their provider reports, performs exactly one aggregation pass
per distinct domain (in declaration order), assigns the i-th value of the
single returned row to the i-th metric id declared for that domain, and a
successful return implies every per-group assertion held (compute-domain
identity matched, single result row, one value per id) — any violation
raises instead. -/
theorem resolveMetricBundle_spec :
    ∀ (D Agg V : Type) (B : SparkBackend D Agg V) (eng : SparkEngine D)
      (bundle : List (BundleItem Agg)) (passes : List (AggPass Agg V))
      (resolved : List (String × V)),
      resolveMetricBundle B eng bundle = .ok (passes, resolved) →
      (∀ b ∈ bundle, b.fn_type = "aggregate_fn") ∧
      passes.map (fun p => p.domain) =
        firstDedup (bundle.map (fun b => b.domain)) ∧
      (∀ p ∈ passes,
         p.aggs = (bundle.filter (fun b => b.domain = p.domain)).map
           (fun b => b.agg) ∧
         p.ids = (bundle.filter (fun b => b.domain = p.domain)).map
           (fun b => b.id) ∧
         (∃ df ak, getComputeDomain B eng p.domain = .ok (df, p.domain, ak) ∧
            B.aggCollect df p.aggs = [p.row]) ∧
         p.ids.length = p.row.length) ∧
      resolved =
        ((passes.map (fun p => p.ids.zip p.row)).flatten).foldl dictInsert [] := by
  intro D Agg V B eng bundle passes resolved h
  rw [resolveMetricBundle] at h
  cases hg : groupBundle bundle with
  | error e => rw [hg] at h; exact absurd h (by simp)
  | ok groups =>
    rw [hg] at h
    dsimp only at h
    cases hr : runMetricGroups B eng groups with
    | error e => rw [hr] at h; exact absurd h (by simp)
    | ok pr =>
      obtain ⟨ps, assigns⟩ := pr
      rw [hr] at h
      dsimp only at h
      obtain ⟨hps, hres⟩ : ps = passes ∧
          assigns.foldl dictInsert [] = resolved := by simpa using h
      subst hps
      have hall : ∀ b ∈ bundle, b.fn_type = "aggregate_fn" :=
        groupBundleAux_ok_all_aggregate bundle [] groups hg
      have hgroups : groups = bundle.foldl insertBundleItem [] := by
        have heq := groupBundleAux_ok_eq bundle [] hall
        rw [groupBundle, heq] at hg
        exact (by simpa using hg : bundle.foldl insertBundleItem [] = groups).symm
      obtain ⟨hdom, hnd, hcontent⟩ := groupFold_spec bundle
      rw [← hgroups] at hdom hnd hcontent
      obtain ⟨htrip, hprops, hassign⟩ := runMetricGroups_ok B eng groups ps assigns hr
      refine ⟨hall, ?_, ?_, ?_⟩
      · have h1 : ps.map (fun p => p.domain) = groups.map (fun g => g.domain) := by
          have h2 := congrArg
            (List.map (fun t : DomainKwargs × List Agg × List String => t.1)) htrip
          simpa [List.map_map, Function.comp] using h2
        rw [h1, hdom]
      · intro p hp
        have hpmem : (p.domain, p.aggs, p.ids) ∈
            groups.map (fun g => (g.domain, g.aggs, g.ids)) := by
          rw [← htrip]
          exact List.mem_map_of_mem _ hp
        obtain ⟨g, hgmem, heq⟩ := List.mem_map.mp hpmem
        have hd : g.domain = p.domain := congrArg (fun t => t.1) heq
        have ha : g.aggs = p.aggs := congrArg (fun t => t.2.1) heq
        have hi : g.ids = p.ids := congrArg (fun t => t.2.2) heq
        obtain ⟨hga, hgi⟩ := hcontent g hgmem
        obtain ⟨df, ak, hcd, hagg2, hlen2⟩ := hprops p hp
        exact ⟨by rw [← ha, hga, hd], by rw [← hi, hgi, hd],
          ⟨df, ak, hcd, hagg2⟩, hlen2⟩
      · rw [← hres, hassign]

/-- Witness for C2: two aggregates over one shared domain — one backend
pass, both ids populated from the single row in declared order. -/
theorem resolveMetricBundle_witness :
    ([⟨⟨none, none, none, none, none, []⟩, [11, 22], ["m1", "m2"],
        [11, 22]⟩] : List (AggPass Nat Nat)).map (fun p => p.domain) =
      firstDedup (bundleTwo.map (fun b => b.domain)) ∧
    ([("m1", 11), ("m2", 22)] : List (String × Nat)) =
      ((([⟨⟨none, none, none, none, none, []⟩, [11, 22], ["m1", "m2"],
          [11, 22]⟩] : List (AggPass Nat Nat)).map
            (fun p => p.ids.zip p.row)).flatten).foldl dictInsert [] :=
  have h : resolveMetricBundle natBackend natEngine bundleTwo =
      .ok ([⟨⟨none, none, none, none, none, []⟩, [11, 22], ["m1", "m2"],
        [11, 22]⟩], [("m1", 11), ("m2", 22)]) := by rfl
  ⟨(resolveMetricBundle_spec Nat Nat Nat natBackend natEngine bundleTwo _ _ h).2.1,
   (resolveMetricBundle_spec Nat Nat Nat natBackend natEngine bundleTwo _ _ h).2.2.2⟩

end GreatExpectations
